import Mathlib

/-!
Verification of the group60 negotiation agent
(`agents/group60_agent/template_agent.py` and
`agents/group60_agent/utils/final_phase_plan.py`).

Shallow embedding conventions:
* Bids (outcomes) are identified by natural-number ids; the agent's utility
  function and the opponent model's predicted utility are `ℕ → ℚ` fields of
  the state.  Python `float`/`Decimal` arithmetic is idealised as exact `ℚ`
  arithmetic; a Python division whose divisor is zero raises, which we model
  by returning `none`.
* The randomness of `random.sample(lst, 1)[0]` and `randint` is modelled by
  explicit oracle arguments: an index choice `r : ℕ` picks element
  `lst[r % len(lst)]` (every element of the support is reachable), and the
  500-draw loop of `best_bid` receives its draw list as an argument.
* A Python method that can raise an uncaught exception is embedded as an
  `Option`-valued function returning `none` on the raising paths.
-/

namespace Group60

/-- The result of one invocation of `TemplateAgent.my_turn`
(template_agent.py lines 172-206).  The Python method builds an `action`
(initially `None`) and ends with `send_action(action)`;
`noAction` models `send_action(None)` (no branch assigned an action), and
`error` models an uncaught exception inside the turn. -/
inductive TurnOutcome where
  | accept : Option ℕ → TurnOutcome
  | offer : Option ℕ → TurnOutcome
  | noAction : TurnOutcome
  | error : TurnOutcome
deriving DecidableEq, Repr

/-- The state of `TemplateAgent` that `my_turn` reads.
`allBids` embeds `AllBidsList(domain)` in enumeration order;
`utility` embeds `profile.getUtility`.
Modelled from the spec (opponent_model.py is not under src/):
`opponentOffers` is `OpponentModel.offers`, the history of opponent
proposals (spec §3: "the full history of opponent Proposals"); an absent
opponent model is represented by an empty history.  `predicted` is
`OpponentModel.get_predicted_utility`, kept abstract as a function. -/
structure AgentState where
  allBids : List ℕ
  utility : ℕ → ℚ
  predicted : ℕ → ℚ
  opponentOffers : List ℕ
  reservationValue : ℚ
  lastReceivedBid : Option ℕ

/-- `TemplateAgent.accept_const` (lines 208-212): `False` on a `None` bid,
else `getUtility(bid) > alpha`. -/
def acceptConst (s : AgentState) (alpha : ℚ) : Bool :=
  match s.lastReceivedBid with
  | none => false
  | some b => decide (alpha < s.utility b)

/-- The arithmetic core of `TemplateAgent.accept_Atlas3`
(lines 219-229), computing the time-decaying acceptance bound `alpha`.
The two `none` branches model the `Decimal` divisions raising when their
divisor is zero (`u_HC - u_CC = 0`, resp. `1 + (u_CH - u_HH)/(u_HC - u_CC)
= 0`); the Python code has no guard for either. -/
def atlasAlpha (fRes fBest t : ℚ) : Option ℚ :=
  let uCH := max fRes fBest
  let uHH := fRes
  let uHC : ℚ := 1
  let uCC := 1/2 * uCH + 1/2 * uHC
  if uHC - uCC = 0 then none
  else if 1 + (uCH - uHH) / (uHC - uCC) = 0 then none
  else
    let q := 1 / (1 + (uCH - uHH) / (uHC - uCC))
    let E := q * uCH + (1 - q) * uCC
    some (1 - t * (1 - E))

/-- The acceptance bound exactly as the specification words it
(spec §4.2, "Equilibrium-based acceptance rule"): scenario utilities
`U_HH = U_reserve`, `U_CH = max(U_reserve, U_best)`, `U_HC = 1`,
`U_CC = 0.5*max(U_reserve, U_best) + 0.5`, mixing weight
`q = 1/(1 + (U_CH - U_HH)/(U_HC - U_CC))`, expected final utility
`E = q*U_CH + (1-q)*U_CC`, bound `alpha(t) = 1 - t*(1 - E)`. -/
def equilibriumAlphaSpec (uReserve uBest t : ℚ) : ℚ :=
  let uHH := uReserve
  let uCH := max uReserve uBest
  let uHC : ℚ := 1
  let uCC := 1/2 * max uReserve uBest + 1/2
  let q := 1 / (1 + (uCH - uHH) / (uHC - uCC))
  let E := q * uCH + (1 - q) * uCC
  1 - t * (1 - E)

/-- `max([profile.getUtility(b) for b in opponent_model.offers])`
(line 219); `none` models the raise on a missing opponent model or an
empty history (`max([])`). -/
def bestOffered (s : AgentState) : Option ℚ :=
  match s.opponentOffers.map s.utility with
  | [] => none
  | x :: xs => some (xs.foldl max x)

/-- `TemplateAgent.accept_Atlas3` (lines 214-231): accept iff
`getUtility(bid) > alpha`; `none` models any raising path (missing
opponent model / empty history, `None` bid, zero divisor). -/
def acceptAtlas3 (s : AgentState) (bid : Option ℕ) (t : ℚ) : Option Bool :=
  match bestOffered s, bid with
  | some fBest, some b =>
      (atlasAlpha s.reservationValue fBest t).map (fun a => decide (a < s.utility b))
  | _, _ => none

/-- The lower bound of `sample_bid_above_time_bound` (lines 273-275):
`max(phase_boundaries[1] - phase_boundaries[0]*t**2,
     max(reservation_value, 0.6))` with boundaries `[0.15, 0.4, 0.9]`. -/
def floorBound (s : AgentState) (t : ℚ) : ℚ :=
  max (2/5 - 3/20 * t ^ 2) (max s.reservationValue (3/5))

/-- The filtered pool of `sample_bid_above_time_bound` (lines 270-277).
`omegas = [all_bids.get(i) for i in range(0, all_bids.size() - 1)]`
enumerates indices `0 .. size-2`, i.e. every bid except the last
(`List.dropLast`); the pool keeps those with `getUtility(omega) >` the
time bound.  The pool is rebuilt from the domain on every call. -/
def sampleBidCandidates (s : AgentState) (t : ℚ) : List ℕ :=
  s.allBids.dropLast.filter (fun b => decide (floorBound s t < s.utility b))

/-- The `joint_util` lambda of `random_bid_above_best_join_utility`
(lines 238-239): `(1.8 - 0.3*t**2)*getUtility(omega) +
predicted_utility(omega)`. -/
def jointUtil (s : AgentState) (t : ℚ) (b : ℕ) : ℚ :=
  (9/5 - 3/10 * t ^ 2) * s.utility b + s.predicted b

/-- The filtered pool of `random_bid_above_best_join_utility`
(lines 240-246): all bids whose agent utility is `>= max(u_joint)`.
`none` models `max([])` raising on an empty outcome space. -/
def joinCandidates (s : AgentState) (t : ℚ) : Option (List ℕ) :=
  match s.allBids.map (jointUtil s t) with
  | [] => none
  | x :: xs =>
      let fMax := xs.foldl max x
      some (s.allBids.filter (fun b => decide (fMax ≤ s.utility b)))

/-- `random.sample(l, k=1)[0]` with the uniform choice supplied as an
oracle index `r`: `none` iff `l` is empty (Python raises `ValueError`),
otherwise the element at `r % len(l)` (every element is reachable). -/
def sampleOne (l : List ℕ) (r : ℕ) : Option ℕ :=
  l.get? (r % l.length)

/-- `TemplateAgent.best_bid` (lines 248-262): 500 draws
`all_bids.get(randint(0, size-1))`, keeping the first bid strictly
improving on the running `best_bid_score` which starts at `0` with
`best_bid = None`.  The draw sequence is the oracle `draws`, each draw
taken modulo the domain size. -/
def bestBid (s : AgentState) (draws : List ℕ) : Option ℕ :=
  (draws.foldl
    (fun acc d =>
      let b := s.allBids.getD (d % s.allBids.length) 0
      if acc.1 < s.utility b then (s.utility b, some b) else acc)
    ((0 : ℚ), (none : Option ℕ))).2

/-- `TemplateAgent.my_turn` (lines 172-206).  Phase boundaries
`[0.15, 0.4, 0.9]`; `action` starts as `None` and is only assigned in the
three `progress < boundary` branches, so for `t ≥ 0.9` the method sends
`None` (`noAction`).  `draws` and `pick` are the randomness oracles. -/
def myTurn (s : AgentState) (t : ℚ) (draws : List ℕ) (pick : ℕ) : TurnOutcome :=
  if t < 3/20 then
    if acceptConst s (9/10) then .accept s.lastReceivedBid
    else .offer (bestBid s draws)
  else if t < 2/5 then
    if acceptConst s (4/5) then .accept s.lastReceivedBid
    else
      match sampleOne (sampleBidCandidates s t) pick with
      | some b => .offer (some b)
      | none => .error
  else if t < 9/10 then
    match acceptAtlas3 s s.lastReceivedBid t with
    | none => .error
    | some true => .accept s.lastReceivedBid
    | some false =>
        match joinCandidates s t with
        | none => .error
        | some cs =>
            match sampleOne cs pick with
            | some b => .offer (some b)
            | none => .error
  else .noAction

/-! ### The final-phase planner (`final_phase_plan.py`) -/

/-- `BidInfo` (final_phase_plan.py lines 119-141): a candidate bid with
the agent's utility `u`, the predicted acceptance probability `p` and the
`selected` flag. -/
structure BidInfo where
  bid : ℕ
  u : ℚ
  p : ℚ
  selected : Bool
deriving DecidableEq, Repr

/-- `BidInfo.payoff` (line 137-138): `u * p`. -/
def BidInfo.payoff (b : BidInfo) : ℚ := b.u * b.p

/-- The mutable state of `FinalPhasePlan` (lines 16-25): the candidate
list `all_bids`, the stored expected utility `EU`, the current `plan` and
the play cursor `bids_executed`. -/
structure PlannerState where
  allBids : List BidInfo
  EU : ℚ
  plan : List BidInfo
  bidsExecuted : ℕ
deriving DecidableEq, Repr

/-- `float(profile.getUtility(reservation_bid)) if ... else 0`
(line 33): the reservation bid's utility, `0` when there is none. -/
def reservationEU : Option ℚ → ℚ
  | some r => r
  | none => 0

/-- The running best candidate of the inner scan: the Python loop keeps a
pair `best_EU` (a rational, initially the current `EU`) and `best_EU_bid`
(initially `None`); we store them as `Option (index, value)` whose value
under `bestVal` is `EU` while no candidate has improved. -/
def bestVal (EU : ℚ) : Option (ℕ × ℚ) → ℚ
  | none => EU
  | some iv => iv.2

/-- One pass of the inner `for bid in self.all_bids` loop of
`FinalPhasePlan.gca` (lines 42-51), carried out over the remaining list:
a selected bid folds `EU_suf -= p_pref*p*u; p_pref *= (1-p)`, an
unselected bid is scored `EU_cur = EU + p_pref*p*u - p*EU_suf` and kept
iff it strictly improves on the running best. -/
def scanGo (EU : ℚ) (EUsuf pPref : ℚ) (best : Option (ℕ × ℚ)) (i : ℕ) :
    List BidInfo → Option (ℕ × ℚ)
  | [] => best
  | b :: bs =>
    if b.selected then
      scanGo EU (EUsuf - pPref * b.p * b.u) (pPref * (1 - b.p)) best (i + 1) bs
    else
      scanGo EU EUsuf pPref
        (if bestVal EU best < EU + pPref * b.p * b.u - b.p * EUsuf
         then some (i, EU + pPref * b.p * b.u - b.p * EUsuf) else best)
        (i + 1) bs

/-- `best_EU_bid.selected = True` (line 58): set the flag of the bid at
the given position. -/
def setSelected : List BidInfo → ℕ → List BidInfo
  | [], _ => []
  | b :: bs, 0 => { b with selected := true } :: bs
  | b :: bs, n + 1 => b :: setSelected bs n

/-- The `for i in range(deadline)` loop of `FinalPhasePlan.gca`
(lines 35-59): each iteration scans for the best marginal candidate,
breaks when `best_EU == EU` (equivalently, no candidate strictly
improved, i.e. the scan returns no candidate), otherwise marks it
selected and sets `EU = best_EU`. -/
def gcaLoop : ℕ → ℚ → List BidInfo → ℚ × List BidInfo
  | 0, EU, bids => (EU, bids)
  | n + 1, EU, bids =>
    match scanGo EU EU 1 none 0 bids with
    | none => (EU, bids)
    | some iv => gcaLoop n iv.2 (setSelected bids iv.1)

/-- `FinalPhasePlan.gca` (lines 27-65): drop already-selected bids from
the pool, run the greedy loop starting from the reservation utility, then
store the selected bids (in pool order) as the plan, the reached `EU`,
and reset the cursor. -/
def gca (resBid : Option ℚ) (deadline : ℕ) (s : PlannerState) : PlannerState :=
  let bids0 := s.allBids.filter (fun b => !b.selected)
  let r := gcaLoop deadline (reservationEU resBid) bids0
  { allBids := r.2, EU := r.1, plan := r.2.filter (fun b => b.selected),
    bidsExecuted := 0 }

/-- `FinalPhasePlan.next_bid` (lines 67-76): return the plan entry at the
cursor (`none` models the `IndexError` on an exhausted empty plan),
advance the cursor, update `EU = (EU - payoff) / (1 - p)` (`none` models
the `ZeroDivisionError` when `p = 1`), and rebuild via `gca(1)` when the
cursor reaches the end of the plan.  Returns the offered bid id and the
new state. -/
def nextBid (resBid : Option ℚ) (s : PlannerState) : Option (ℕ × PlannerState) :=
  match s.plan.get? s.bidsExecuted with
  | none => none
  | some b =>
    if b.p = 1 then none
    else
      let s1 : PlannerState :=
        { s with bidsExecuted := s.bidsExecuted + 1,
                 EU := (s.EU - b.payoff) / (1 - b.p) }
      some (b.bid, if s1.bidsExecuted = s1.plan.length then gca resBid 1 s1 else s1)

/-! ### Specification-side reformulation of the greedy construction

The following definitions transcribe the specification's wording of the
planning algorithm (spec §4.3): for each not-yet-selected candidate,
`EU_suf` and `p_pref` are obtained by folding over the already-selected
candidates that precede it in plan order, the candidate's marginal value
is `EU_cur = EU + p_pref*p*u - p*EU_suf`, and the iteration selects a
candidate maximizing `EU_cur`, stopping as soon as no candidate improves
`EU`. -/

/-- One fold step `EU_suf -= p_pref*p*u; p_pref *= (1 - p)` over a
selected bid (spec §4.3). -/
def sufStep (a : ℚ × ℚ) (b : BidInfo) : ℚ × ℚ :=
  (a.1 - a.2 * b.p * b.u, a.2 * (1 - b.p))

/-- `(EU_suf, p_pref)` after folding over a list of selected bids in plan
order, starting from `(EU, 1)`. -/
def sufState (EU : ℚ) (sel : List BidInfo) : ℚ × ℚ :=
  sel.foldl sufStep (EU, 1)

/-- The marginal value `EU_cur = EU + p_pref*p_i*u_i - p_i*EU_suf` of
adding candidate `b` after the selected bids `sel` (spec §4.3). -/
def margin (EU : ℚ) (sel : List BidInfo) (b : BidInfo) : ℚ :=
  EU + (sufState EU sel).2 * b.p * b.u - b.p * (sufState EU sel).1

/-- The indexed marginal values of all not-yet-selected candidates: for
candidate `i`, the fold runs over the selected bids among the first `i`
entries of the pool (their order in the pool is the plan order). -/
def specCands (EU : ℚ) (bids : List BidInfo) : List (ℕ × ℚ) :=
  (bids.enum.filter (fun ib => !ib.2.selected)).map
    (fun ib => (ib.1, margin EU ((bids.take ib.1).filter (fun b => b.selected)) ib.2))

/-- Keep the better of the running choice and the next candidate,
strictly: ties keep the earlier candidate, and a candidate is only picked
at all if it beats the current value (`EU` while nothing is picked). -/
def pickStep (EU : ℚ) (acc : Option (ℕ × ℚ)) (iv : ℕ × ℚ) : Option (ℕ × ℚ) :=
  if bestVal EU acc < iv.2 then some iv else acc

/-- The first candidate attaining the maximal marginal value, provided it
improves on `EU`; `none` when no candidate improves. -/
def pickBest (EU : ℚ) (l : List (ℕ × ℚ)) : Option (ℕ × ℚ) :=
  l.foldl (pickStep EU) none

/-- The greedy loop as the specification words it: up to `deadline`
iterations, each selecting a candidate of maximal marginal value and
stopping early once no candidate improves `EU`. -/
def gcaLoopSpec : ℕ → ℚ → List BidInfo → ℚ × List BidInfo
  | 0, EU, bids => (EU, bids)
  | n + 1, EU, bids =>
    match pickBest EU (specCands EU bids) with
    | none => (EU, bids)
    | some iv => gcaLoopSpec n iv.2 (setSelected bids iv.1)

/-- The specification-side rebuild: same surrounding bookkeeping as
`gca`, with the loop replaced by its specification wording. -/
def gcaSpec (resBid : Option ℚ) (deadline : ℕ) (s : PlannerState) : PlannerState :=
  let bids0 := s.allBids.filter (fun b => !b.selected)
  let r := gcaLoopSpec deadline (reservationEU resBid) bids0
  { allBids := r.2, EU := r.1, plan := r.2.filter (fun b => b.selected),
    bidsExecuted := 0 }

/-- The expected utility of playing an ordered list of `(u, p)`
candidates (spec §8, "the same expected-utility semantics", with no
reservation): the first bid is accepted with probability `p` for payoff
`u`, otherwise play continues. -/
def planEU : List (ℚ × ℚ) → ℚ
  | [] => 0
  | up :: rest => up.2 * up.1 + (1 - up.2) * planEU rest

/-! ### Concrete instances used by the claims -/

/-- State past the last phase boundary: the last received bid `0` has
utility `0.95`, above the reservation value `0.3`. -/
def ex1 : AgentState :=
  { allBids := [0, 1]
    utility := fun b => if b = 0 then 19/20 else 3/10
    predicted := fun _ => 0
    opponentOffers := [0]
    reservationValue := 3/10
    lastReceivedBid := some 0 }

/-- A fresh state (no opponent interaction yet). -/
def ex2 : AgentState :=
  { allBids := [0]
    utility := fun _ => 1/2
    predicted := fun _ => 0
    opponentOffers := []
    reservationValue := 0
    lastReceivedBid := none }

/-- The acceptance-rule test state of spec §8: reservation `0.3`, best
opponent offer utility `0.7` (bid `70`), candidate bids `95` and `10` of
utilities `0.95` and `0.1`. -/
def c3State : AgentState :=
  { allBids := [70, 95, 10]
    utility := fun b => (b : ℚ) / 100
    predicted := fun _ => 0
    opponentOffers := [70]
    reservationValue := 3/10
    lastReceivedBid := some 70 }

/-- Two outcomes both above the discussion-phase floor. -/
def ex7 : AgentState :=
  { allBids := [0, 1]
    utility := fun _ => 1
    predicted := fun _ => 0
    opponentOffers := []
    reservationValue := 0
    lastReceivedBid := none }

/-- Concession-phase state whose joint-utility filter is empty: utilities
`0.9` and `0.1`, predicted utilities `0`, last received bid `1`. -/
def ex8 : AgentState :=
  { allBids := [0, 1]
    utility := fun b => if b = 0 then 9/10 else 1/10
    predicted := fun _ => 0
    opponentOffers := [1]
    reservationValue := 0
    lastReceivedBid := some 1 }

/-- Discussion-phase state whose floor filter is empty: all utilities
`0.5`, below the `0.6` floor. -/
def ex8b : AgentState :=
  { allBids := [0, 1]
    utility := fun _ => 1/2
    predicted := fun _ => 0
    opponentOffers := []
    reservationValue := 0
    lastReceivedBid := some 0 }

/-- State in which the best observed opponent offer has utility `1`, so
`max(U_reserve, U_best) = 1` and `u_HC - u_CC = 0`. -/
def ex9 : AgentState :=
  { allBids := [0]
    utility := fun _ => 1
    predicted := fun _ => 0
    opponentOffers := [0]
    reservationValue := 0
    lastReceivedBid := some 0 }

/-- The three synthetic candidates of spec §8 with `(u, p)` =
`(0.9, 0.2), (0.6, 0.8), (0.3, 0.95)`, sorted by decreasing `u`. -/
def c5Bids : List BidInfo :=
  [⟨0, 9/10, 1/5, false⟩, ⟨1, 3/5, 4/5, false⟩, ⟨2, 3/10, 19/20, false⟩]

/-- Fresh planner state over the three synthetic candidates. -/
def c5Init : PlannerState := ⟨c5Bids, 0, [], 0⟩

/-- The `(u, p)` pairs of the three synthetic candidates. -/
def c5A : ℚ × ℚ := (9/10, 1/5)

/-- Second synthetic candidate. -/
def c5B : ℚ × ℚ := (3/5, 4/5)

/-- Third synthetic candidate. -/
def c5C : ℚ × ℚ := (3/10, 19/20)

/-- Every ordered subset of at most two of the three synthetic
candidates. -/
def c5AllPlans : List (List (ℚ × ℚ)) :=
  [[], [c5A], [c5B], [c5C],
   [c5A, c5B], [c5A, c5C], [c5B, c5A], [c5B, c5C], [c5C, c5A], [c5C, c5B]]

/-- A planner state whose cursor sits on a bid with acceptance
probability `1`. -/
def c6State : PlannerState :=
  ⟨[⟨0, 1/2, 1, true⟩], 1/2, [⟨0, 1/2, 1, true⟩], 0⟩

/-- A planner state mid-plan with a well-behaved cursor bid
(`u = 0.8, p = 0.5`) followed by one more planned bid. -/
def c6Good : PlannerState :=
  ⟨[⟨7, 4/5, 1/2, true⟩, ⟨8, 3/5, 1/2, true⟩], 1/2,
   [⟨7, 4/5, 1/2, true⟩, ⟨8, 3/5, 1/2, true⟩], 0⟩

/-! ### General lemmas about the greedy scan -/

/-- The running best value never decreases along the inner scan. -/
theorem bestVal_le_scanGo (EU : ℚ) :
    ∀ (rest : List BidInfo) (suf pp : ℚ) (acc : Option (ℕ × ℚ)) (i : ℕ),
      bestVal EU acc ≤ bestVal EU (scanGo EU suf pp acc i rest) := by
  intro rest
  induction rest with
  | nil => intro suf pp acc i; simp [scanGo]
  | cons b bs ih =>
    intro suf pp acc i
    by_cases hb : b.selected
    · simp only [scanGo, hb, if_true]
      exact ih _ _ acc (i + 1)
    · simp only [scanGo, hb, if_false, Bool.false_eq_true]
      by_cases hlt : bestVal EU acc < EU + pp * b.p * b.u - b.p * suf
      · rw [if_pos hlt]
        exact le_trans (le_of_lt hlt) (ih _ _ _ (i + 1))
      · rw [if_neg hlt]
        exact ih _ _ acc (i + 1)

/-- The greedy loop never decreases the running expected utility. -/
theorem gcaLoop_le (n : ℕ) : ∀ (EU : ℚ) (bids : List BidInfo), EU ≤ (gcaLoop n EU bids).1 := by
  induction n with
  | zero => intro EU bids; simp [gcaLoop]
  | succ n ih =>
    intro EU bids
    rcases h : scanGo EU EU 1 none 0 bids with _ | iv
    · simp [gcaLoop, h]
    · have hle := bestVal_le_scanGo EU bids EU 1 none 0
      rw [h] at hle
      simp only [bestVal] at hle
      simp only [gcaLoop, h]
      exact le_trans hle (ih iv.2 _)

/-- Folding one more selected bid into the suffix state. -/
theorem sufState_append (EU : ℚ) (l : List BidInfo) (b : BidInfo) :
    sufState EU (l ++ [b]) = sufStep (sufState EU l) b := by
  simp [sufState, List.foldl_append]

/-- The single interleaved pass of `gca` over the pool computes, for each
not-yet-selected candidate, exactly the marginal value obtained by folding
`EU_suf`/`p_pref` over the selected bids preceding it, and keeps the first
strict maximizer: the scan from any split point `full = pre ++ rest` agrees
with the fold of `pickStep` over the remaining candidates' marginal
values. -/
theorem scanGo_eq (EU : ℚ) (full : List BidInfo) :
    ∀ (rest pre : List BidInfo) (acc : Option (ℕ × ℚ)), full = pre ++ rest →
      scanGo EU (sufState EU (pre.filter (fun b => b.selected))).1
        (sufState EU (pre.filter (fun b => b.selected))).2 acc pre.length rest
      = ((rest.enumFrom pre.length).filter (fun ib => !ib.2.selected)).foldl
          (fun a ib => pickStep EU a
            (ib.1, margin EU ((full.take ib.1).filter (fun b => b.selected)) ib.2)) acc := by
  intro rest
  induction rest with
  | nil => intro pre acc _; simp [scanGo, List.enumFrom]
  | cons b bs ih =>
    intro pre acc hfull
    have hfull' : full = (pre ++ [b]) ++ bs := by rw [hfull]; simp
    have hlen : (pre ++ [b]).length = pre.length + 1 := by simp
    have htake : full.take pre.length = pre := by rw [hfull]; exact List.take_left pre (b :: bs)
    have henum : (b :: bs).enumFrom pre.length
        = (pre.length, b) :: bs.enumFrom (pre.length + 1) := rfl
    by_cases hb : b.selected
    · have hfilter : (pre ++ [b]).filter (fun b => b.selected)
          = pre.filter (fun b => b.selected) ++ [b] := by
        simp [List.filter_append, hb]
      have hstep := ih (pre ++ [b]) acc hfull'
      rw [hfilter, sufState_append, hlen] at hstep
      simp only [scanGo, hb, if_true, henum, List.filter_cons, Bool.not_true,
        Bool.false_eq_true, if_false]
      simpa [sufStep] using hstep
    · have hfilter : (pre ++ [b]).filter (fun b => b.selected)
          = pre.filter (fun b => b.selected) := by
        simp [List.filter_append, hb]
      have hmargin : margin EU ((full.take pre.length).filter (fun b => b.selected)) b
          = EU + (sufState EU (pre.filter (fun b => b.selected))).2 * b.p * b.u
              - b.p * (sufState EU (pre.filter (fun b => b.selected))).1 := by
        rw [htake]; rfl
      have hstep := ih (pre ++ [b])
        (pickStep EU acc (pre.length,
          margin EU ((full.take pre.length).filter (fun b => b.selected)) b)) hfull'
      rw [hfilter, hlen] at hstep
      simp only [scanGo, hb, Bool.false_eq_true, if_false, henum, List.filter_cons,
        Bool.not_false, if_true]
      simp only [List.foldl_cons]
      rw [← hstep]
      simp [pickStep, hmargin]

/-- The full inner scan equals the specification-side choice of the best
candidate by marginal value. -/
theorem scanGo_eq_pickBest (EU : ℚ) (bids : List BidInfo) :
    scanGo EU EU 1 none 0 bids = pickBest EU (specCands EU bids) := by
  have h := scanGo_eq EU bids bids [] none rfl
  simp only [List.filter_nil, List.length_nil] at h
  have hsuf : sufState EU [] = (EU, 1) := rfl
  rw [hsuf] at h
  rw [pickBest, specCands, List.foldl_map]
  exact h

/-- The source-side greedy loop and its specification wording agree. -/
theorem gcaLoop_eq_spec : ∀ (n : ℕ) (EU : ℚ) (bids : List BidInfo),
    gcaLoop n EU bids = gcaLoopSpec n EU bids := by
  intro n
  induction n with
  | zero => intro EU bids; rfl
  | succ n ih =>
    intro EU bids
    simp only [gcaLoop, gcaLoopSpec, scanGo_eq_pickBest]
    rcases pickBest EU (specCands EU bids) with _ | iv
    · rfl
    · exact ih iv.2 _

/-- Fold invariants of `pickStep`: the running value never decreases, it
bounds every processed candidate, and the result is either the start
accumulator or a processed candidate that strictly improved on it. -/
theorem pickBest_go (EU : ℚ) : ∀ (l : List (ℕ × ℚ)) (acc : Option (ℕ × ℚ)),
    bestVal EU acc ≤ bestVal EU (l.foldl (pickStep EU) acc)
    ∧ (∀ iv ∈ l, iv.2 ≤ bestVal EU (l.foldl (pickStep EU) acc))
    ∧ (l.foldl (pickStep EU) acc = acc
        ∨ ∃ iv ∈ l, l.foldl (pickStep EU) acc = some iv ∧ bestVal EU acc < iv.2) := by
  intro l
  induction l with
  | nil => intro acc; simp
  | cons jv rest ih =>
    intro acc
    simp only [List.foldl_cons]
    by_cases hlt : bestVal EU acc < jv.2
    · have hstep : pickStep EU acc jv = some jv := by simp [pickStep, hlt]
      rw [hstep]
      obtain ⟨ih1, ih2, ih3⟩ := ih (some jv)
      refine ⟨le_trans (le_of_lt hlt) ih1, ?_, ?_⟩
      · intro iv hiv
        rcases List.mem_cons.1 hiv with h | h
        · subst h; simpa [bestVal] using ih1
        · exact ih2 iv h
      · rcases ih3 with h | ⟨iv, hiv, hr, hv⟩
        · exact Or.inr ⟨jv, List.mem_cons_self _ _, h, hlt⟩
        · exact Or.inr ⟨iv, List.mem_cons_of_mem _ hiv, hr,
            lt_trans hlt (by simpa [bestVal] using hv)⟩
    · have hstep : pickStep EU acc jv = acc := by simp [pickStep, hlt]
      rw [hstep]
      obtain ⟨ih1, ih2, ih3⟩ := ih acc
      refine ⟨ih1, ?_, ?_⟩
      · intro iv hiv
        rcases List.mem_cons.1 hiv with h | h
        · subst h; exact le_trans (not_lt.1 hlt) ih1
        · exact ih2 iv h
      · rcases ih3 with h | ⟨iv, hiv, hr, hv⟩
        · exact Or.inl h
        · exact Or.inr ⟨iv, List.mem_cons_of_mem _ hiv, hr, hv⟩

/-- The unguarded `Decimal` divisions of `accept_Atlas3` succeed whenever
`max(U_reserve, U_best) < 1`, and then compute exactly the bound of the
specification's equilibrium rule. -/
theorem atlasAlpha_eq_spec (fRes fBest t : ℚ) (h : max fRes fBest < 1) :
    atlasAlpha fRes fBest t = some (equilibriumAlphaSpec fRes fBest t) := by
  have hd : (0 : ℚ) < 1 - (1/2 * max fRes fBest + 1/2 * 1) := by nlinarith
  have hn : (0 : ℚ) ≤ max fRes fBest - fRes := sub_nonneg.2 (le_max_left _ _)
  have hr : (0 : ℚ) ≤ (max fRes fBest - fRes) / (1 - (1/2 * max fRes fBest + 1/2 * 1)) :=
    div_nonneg hn (le_of_lt hd)
  have h1 : ¬ ((1 : ℚ) - (1/2 * max fRes fBest + 1/2 * 1) = 0) := by linarith
  have h2 : ¬ ((1 : ℚ) + (max fRes fBest - fRes) / (1 - (1/2 * max fRes fBest + 1/2 * 1)) = 0) := by
    linarith
  unfold atlasAlpha
  rw [if_neg h1, if_neg h2]
  unfold equilibriumAlphaSpec
  norm_num

/-- Membership in the discussion-phase pool. -/
theorem sampleBidCandidates_mem (s : AgentState) (t : ℚ) (b : ℕ) :
    b ∈ sampleBidCandidates s t ↔ b ∈ s.allBids.dropLast ∧ floorBound s t < s.utility b := by
  simp [sampleBidCandidates, List.mem_filter]

/-- Every member of a pool is reachable by the sampling oracle. -/
theorem sampleOne_reaches (l : List ℕ) (b : ℕ) (hb : b ∈ l) :
    ∃ r, sampleOne l r = some b := by
  obtain ⟨n, hn⟩ := List.mem_iff_get?.1 hb
  have hlt : n < l.length := (List.get?_eq_some.1 hn).1
  exact ⟨n, by rw [sampleOne, Nat.mod_eq_of_lt hlt]; exact hn⟩

/-- In the discussion phase, a non-accepting turn offers whatever the
sampler drew from the pool. -/
theorem myTurn_discussion (s : AgentState) (t : ℚ) (r b : ℕ)
    (h0 : 3/20 ≤ t) (h1 : t < 2/5) (h2 : acceptConst s (4/5) = false)
    (h3 : sampleOne (sampleBidCandidates s t) r = some b) :
    myTurn s t [] r = TurnOutcome.offer (some b) := by
  unfold myTurn
  rw [if_neg (not_lt.2 h0), if_pos h1, h2, h3]
  simp

/-! ### The claims -/

/-- Claim C1 (refuted by the code): `my_turn` is claimed to produce exactly
one decision, Accept or Offer, for every deadline progress `t ∈ [0,1]`.
At `t = 0.95` no phase branch fires: `action` stays `None` and
`send_action(None)` is executed, even in a state whose last received bid
(utility `0.95`) is above the reservation value `0.3`, where the claimed
fallback would accept. -/
theorem my_turn_no_action_past_final_boundary :
    myTurn ex1 (19/20) [] 0 = TurnOutcome.noAction
    ∧ ex1.reservationValue < ex1.utility 0 := by
  constructor
  · norm_num [myTurn]
  · norm_num [ex1]

/-- Claim C2 (refuted by the code): for `t ≥ b2 = 0.9` the turn handler is
claimed to delegate offer selection to the `FinalPhasePlan` planner.
`template_agent.py` never constructs a planner; at `t = 0.95` the turn
produces no action at all, so there is no terminal planning region (the
boundary arithmetic placing `t = 0.10 / 0.25 / 0.60` in the learning,
discussion and concession phases does hold). -/
theorem my_turn_never_delegates_to_planner :
    myTurn ex2 (19/20) [] 0 = TurnOutcome.noAction
    ∧ (1/10 : ℚ) < 3/20 ∧ (3/20 : ℚ) ≤ 1/4 ∧ (1/4 : ℚ) < 2/5
    ∧ (2/5 : ℚ) ≤ 3/5 ∧ (3/5 : ℚ) < 9/10 ∧ ¬ ((19/20 : ℚ) < 9/10) := by
  refine ⟨by norm_num [myTurn], ?_, ?_, ?_, ?_, ?_, ?_⟩ <;> norm_num

/-- Claim C3, counterexample: at `U_reserve = 0.3`, `U_best = 0.7`,
`t = 0.5` the bound computed by `accept_Atlas3` is `alpha(0.5) = 199/220
≈ 0.905`, which does not lie in the claimed interval `(0.3, 0.7)`. -/
theorem accept_Atlas3_alpha_outside_claimed_interval :
    atlasAlpha (3/10) (7/10) (1/2) = some (199/220)
    ∧ ¬ ((3/10 : ℚ) < 199/220 ∧ (199/220 : ℚ) < 7/10) := by
  constructor
  · norm_num [atlasAlpha]
  · norm_num

/-- Claim C3, amended: whenever `max(U_reserve, U_best) < 1`,
`accept_Atlas3`'s bound equals the specification's equilibrium rule
`alpha(t) = 1 - t*(1 - E)`; at `U_reserve = 0.3`, `U_best = 0.7`,
`t = 0.5` the bound is `199/220`, lying in `(0.7, 1)`, a bid of utility
`0.95` is accepted and a bid of utility `0.1` is rejected. -/
theorem accept_Atlas3_equilibrium_rule (fRes fBest t : ℚ) (h : max fRes fBest < 1) :
    atlasAlpha fRes fBest t = some (equilibriumAlphaSpec fRes fBest t)
    ∧ acceptAtlas3 c3State (some 95) (1/2) = some true
    ∧ acceptAtlas3 c3State (some 10) (1/2) = some false
    ∧ atlasAlpha (3/10) (7/10) (1/2) = some (199/220)
    ∧ (7/10 : ℚ) < 199/220 ∧ (199/220 : ℚ) < 1 := by
  have hbest : bestOffered c3State = some (7/10) := by norm_num [bestOffered, c3State]
  have halpha : atlasAlpha c3State.reservationValue (7/10) (1/2) = some (199/220) := by
    norm_num [atlasAlpha, c3State]
  refine ⟨atlasAlpha_eq_spec fRes fBest t h, ?_, ?_, by norm_num [atlasAlpha], by norm_num,
    by norm_num⟩
  · unfold acceptAtlas3
    rw [hbest]
    simp only [Option.map]
    rw [halpha]
    norm_num [c3State]
  · unfold acceptAtlas3
    rw [hbest]
    simp only [Option.map]
    rw [halpha]
    norm_num [c3State]

/-- Claim C3, witness for the amended theorem at a concrete input. -/
theorem accept_Atlas3_equilibrium_rule_witness :
    atlasAlpha (3/10) (7/10) (1/2) = some (equilibriumAlphaSpec (3/10) (7/10) (1/2)) :=
  (accept_Atlas3_equilibrium_rule (3/10) (7/10) (1/2) (by norm_num)).1

/-- Claim C4: every (re)build of the planner runs the greedy construction:
at most `deadline` iterations (the fuel of the loop), each folding
`EU_suf`/`p_pref` over the already-selected candidates in plan order,
scoring every not-yet-selected candidate by
`EU_cur = EU + p_pref*p_i*u_i - p_i*EU_suf`, selecting a candidate
maximizing `EU_cur`, stopping as soon as no candidate improves `EU`, with
`EU` initialized to the reservation value (`0` if none): the source-side
`gca` equals the specification-side `gcaSpec`, and the selection rule
`pickBest` does return a maximizer when one improves on `EU` and `none`
exactly when no candidate improves. -/
theorem gca_matches_greedy_spec :
    (∀ (resBid : Option ℚ) (deadline : ℕ) (s : PlannerState),
        gca resBid deadline s = gcaSpec resBid deadline s)
    ∧ ∀ (EU : ℚ) (l : List (ℕ × ℚ)),
        (pickBest EU l = none → ∀ iv ∈ l, iv.2 ≤ EU)
        ∧ ∀ i v, pickBest EU l = some (i, v) →
            ((i, v) ∈ l ∧ EU < v ∧ ∀ iv ∈ l, iv.2 ≤ v) := by
  constructor
  · intro resBid deadline s
    simp [gca, gcaSpec, gcaLoop_eq_spec]
  · intro EU l
    obtain ⟨h1, h2, h3⟩ := pickBest_go EU l none
    constructor
    · intro hnone iv hiv
      have hthis := h2 iv hiv
      rw [pickBest] at hnone
      rw [hnone] at hthis
      simpa [bestVal] using hthis
    · intro i v hsome
      rw [pickBest] at hsome
      rcases h3 with h | ⟨iv, hiv, hr, hv⟩
      · rw [hsome] at h; exact absurd h (by simp)
      · rw [hsome] at hr
        obtain rfl : iv = (i, v) := by injection hr with h; exact h.symm
        refine ⟨hiv, by simpa [bestVal] using hv, ?_⟩
        intro jv hjv
        have := h2 jv hjv
        rw [hsome] at this
        simpa [bestVal] using this

/-- Claim C4, witness: the equivalence and the maximizer property at
concrete inputs. -/
theorem gca_matches_greedy_spec_witness :
    gca none 2 c5Init = gcaSpec none 2 c5Init
    ∧ ((0, (9/50 : ℚ)) ∈ [((0 : ℕ), (9/50 : ℚ))] ∧ (0 : ℚ) < 9/50
        ∧ ∀ iv ∈ [((0 : ℕ), (9/50 : ℚ))], iv.2 ≤ 9/50) :=
  ⟨gca_matches_greedy_spec.1 none 2 c5Init,
   (gca_matches_greedy_spec.2 0 [(0, 9/50)]).2 0 (9/50)
     (by norm_num [pickBest, pickStep, bestVal])⟩

/-- Claim C5: on the synthetic candidate set `(0.9, 0.2), (0.6, 0.8),
(0.3, 0.95)` with `deadline = 2` and no reservation bid, the greedy
construction reaches `EU = 141/250 = 0.564`, which is at least the
expected utility of every ordered subset of at most two of the three
candidates. -/
theorem gca_plan_optimal_on_synthetic_set :
    (gca none 2 c5Init).EU = 141/250
    ∧ ∀ l ∈ c5AllPlans, planEU l ≤ (gca none 2 c5Init).EU := by
  have h : (gca none 2 c5Init).EU = 141/250 := by
    norm_num [gca, c5Init, c5Bids, gcaLoop, scanGo, setSelected, reservationEU, bestVal,
      List.filter]
  refine ⟨h, ?_⟩
  rw [h]
  intro l hl
  fin_cases hl <;> norm_num [planEU, c5A, c5B, c5C]

/-- Claim C5, witness: the empty plan is dominated by the constructed
plan. -/
theorem gca_plan_optimal_on_synthetic_set_witness :
    planEU [] ≤ (gca none 2 c5Init).EU :=
  gca_plan_optimal_on_synthetic_set.2 [] (by simp [c5AllPlans])

/-- Claim C6 (code bug evidence): `next_bid` does return the cursor bid,
advance the cursor and renormalize `EU` (shown on `c6Good`), but on a
cursor bid with acceptance probability `p = 1` it computes
`(EU - payoff) / (1 - p)` with divisor `0`, raising `ZeroDivisionError`
instead of treating the remaining `EU` as the consumed bid's payoff. -/
theorem next_bid_zero_division_on_certain_acceptance :
    nextBid none c6State = none
    ∧ c6State.plan.get? c6State.bidsExecuted = some ⟨0, 1/2, 1, true⟩
    ∧ nextBid none c6Good
        = some (7, { allBids := c6Good.allBids, EU := 1/5, plan := c6Good.plan,
                     bidsExecuted := 1 }) := by
  refine ⟨by norm_num [nextBid, c6State, List.get?], by norm_num [c6State, List.get?], ?_⟩
  norm_num [nextBid, c6Good, List.get?, BidInfo.payoff]

/-- Claim C7, counterexample: the discussion-phase pool is not the filter
of all outcomes — with two outcomes both above the floor, the pool
contains only the first (`range(0, size - 1)` skips the last outcome). -/
theorem discussion_pool_omits_last_outcome :
    sampleBidCandidates ex7 (1/5)
      ≠ ex7.allBids.filter (fun b => decide (floorBound ex7 (1/5) < ex7.utility b))
    ∧ sampleBidCandidates ex7 (1/5) = [0]
    ∧ ex7.allBids.filter (fun b => decide (floorBound ex7 (1/5) < ex7.utility b)) = [0, 1] := by
  have h1 : sampleBidCandidates ex7 (1/5) = [0] := by
    norm_num [sampleBidCandidates, ex7, floorBound, List.filter, List.dropLast]
  have h2 : ex7.allBids.filter (fun b => decide (floorBound ex7 (1/5) < ex7.utility b))
      = [0, 1] := by
    norm_num [ex7, floorBound, List.filter]
  exact ⟨by rw [h1, h2]; simp, h1, h2⟩

/-- Claim C7, amended: in the discussion phase, when the policy does not
accept, the offered proposal is drawn uniformly at random from the subset
of all outcomes except the last one in enumeration order whose
agent-utility strictly exceeds
`floor(t) = max(b1 - b0*t^2, max(reservation_value, 0.6))`, the filtered
set being rebuilt on each call: pool membership is exactly that filter,
every pool member is reachable by the uniform draw, and the turn offers
whatever was drawn. -/
theorem discussion_sampler_uniform_above_floor (s : AgentState) (t : ℚ) :
    (∀ b, b ∈ sampleBidCandidates s t ↔ b ∈ s.allBids.dropLast ∧ floorBound s t < s.utility b)
    ∧ (∀ b ∈ sampleBidCandidates s t, ∃ r, sampleOne (sampleBidCandidates s t) r = some b)
    ∧ ∀ (r b : ℕ), 3/20 ≤ t → t < 2/5 → acceptConst s (4/5) = false →
        sampleOne (sampleBidCandidates s t) r = some b →
        myTurn s t [] r = TurnOutcome.offer (some b) :=
  ⟨fun b => sampleBidCandidates_mem s t b,
   fun b hb => sampleOne_reaches _ b hb,
   fun r b h0 h1 h2 h3 => myTurn_discussion s t r b h0 h1 h2 h3⟩

/-- Claim C7, witness for the amended theorem at a concrete state. -/
theorem discussion_sampler_uniform_above_floor_witness :
    (0 ∈ sampleBidCandidates ex7 (1/5)
      ↔ 0 ∈ ex7.allBids.dropLast ∧ floorBound ex7 (1/5) < ex7.utility 0)
    ∧ (∃ r, sampleOne (sampleBidCandidates ex7 (1/5)) r = some 0)
    ∧ myTurn ex7 (1/5) [] 0 = TurnOutcome.offer (some 0) := by
  have hpool : sampleBidCandidates ex7 (1/5) = [0] := by
    norm_num [sampleBidCandidates, ex7, floorBound, List.filter, List.dropLast]
  have hmem : 0 ∈ sampleBidCandidates ex7 (1/5) := by rw [hpool]; simp
  have hacc : acceptConst ex7 (4/5) = false := by norm_num [acceptConst, ex7]
  have hdraw : sampleOne (sampleBidCandidates ex7 (1/5)) 0 = some 0 := by
    rw [hpool]; norm_num [sampleOne, List.get?]
  exact ⟨(discussion_sampler_uniform_above_floor ex7 (1/5)).1 0,
    (discussion_sampler_uniform_above_floor ex7 (1/5)).2.1 0 hmem,
    (discussion_sampler_uniform_above_floor ex7 (1/5)).2.2 0 0 (by norm_num) (by norm_num)
      hacc hdraw⟩

/-- Claim C8 (code bug evidence): when a candidate filter is empty the
policy is claimed to fall back to the single best outcome and never
raise.  In `ex8` (concession phase, `t = 0.5`) the joint-utility filter
is empty while the outcome space is not, and in `ex8b` (discussion phase,
`t = 0.2`) the floor filter is empty; both turns end in
`random.sample([], 1)` raising `ValueError` — there is no fallback. -/
theorem empty_candidate_filters_raise :
    joinCandidates ex8 (1/2) = some []
    ∧ ex8.allBids ≠ []
    ∧ myTurn ex8 (1/2) [] 0 = TurnOutcome.error
    ∧ sampleBidCandidates ex8b (1/5) = []
    ∧ myTurn ex8b (1/5) [] 0 = TurnOutcome.error := by
  have hjoin : joinCandidates ex8 (1/2) = some [] := by
    norm_num [joinCandidates, ex8, jointUtil, List.filter]
  have hbest : bestOffered ex8 = some (1/10) := by norm_num [bestOffered, ex8]
  have halpha : atlasAlpha ex8.reservationValue (1/10) (1/2) = some (13/22) := by
    norm_num [atlasAlpha, ex8]
  have hatlas : acceptAtlas3 ex8 ex8.lastReceivedBid (1/2) = some false := by
    unfold acceptAtlas3
    rw [show ex8.lastReceivedBid = some 1 from rfl, hbest]
    simp only [Option.map]
    rw [halpha]
    norm_num [ex8]
  have hpool : sampleBidCandidates ex8b (1/5) = [] := by
    norm_num [sampleBidCandidates, ex8b, floorBound, List.filter, List.dropLast]
  have hacc : acceptConst ex8b (4/5) = false := by norm_num [acceptConst, ex8b]
  refine ⟨hjoin, by simp [ex8], ?_, hpool, ?_⟩
  · unfold myTurn
    rw [hatlas, hjoin]
    norm_num [sampleOne]
  · unfold myTurn
    rw [hacc, hpool]
    norm_num [sampleOne]

/-- Claim C9 (code bug evidence): when the best observed opponent-offer
utility is `1` (so `max(U_reserve, U_best) = 1` and `u_HC - u_CC = 0`),
`accept_Atlas3` divides by zero and the `Decimal` division raises; the
claimed `q = 1` fallback does not exist, so the turn fails instead of
producing a decision. -/
theorem accept_Atlas3_raises_on_unit_best_offer :
    bestOffered ex9 = some 1
    ∧ max ex9.reservationValue (1 : ℚ) = 1
    ∧ atlasAlpha ex9.reservationValue 1 (1/2) = none
    ∧ myTurn ex9 (1/2) [] 0 = TurnOutcome.error := by
  have hbest : bestOffered ex9 = some 1 := by norm_num [bestOffered, ex9]
  have halpha : atlasAlpha ex9.reservationValue 1 (1/2) = none := by
    norm_num [atlasAlpha, ex9]
  have hatlas : acceptAtlas3 ex9 ex9.lastReceivedBid (1/2) = none := by
    unfold acceptAtlas3
    rw [show ex9.lastReceivedBid = some 0 from rfl, hbest]
    simp only [Option.map]
    rw [halpha]
  refine ⟨hbest, by norm_num [ex9], halpha, ?_⟩
  unfold myTurn
  rw [hatlas]
  norm_num

/-- Claim C10: after every (re)build, the planner's stored `EU` is at
least the reservation utility (`0` when no reservation bid exists): the
loop starts at the reservation value and only ever moves to strictly
larger values. -/
theorem gca_EU_ge_reservation (resBid : Option ℚ) (deadline : ℕ) (s : PlannerState) :
    reservationEU resBid ≤ (gca resBid deadline s).EU := by
  simp only [gca]
  exact gcaLoop_le deadline (reservationEU resBid) _

end Group60
